import Mathlib

/-!
Shallow embedding of the Medical-IDP pipeline and proofs of the
specification's testable properties against it.

Sources embedded: `src/document_parser.py` (capability extraction, scoring,
medical-desert aggregation), `src/extraction_agent.py` (deduplication,
LLM-based procedure extraction), `src/citation_tracker.py` (citation ledger)
and `src/orchestrator.py` (query pipeline with top-level error handling).

Modelling conventions: Python strings are Lean `String`s, with character-wise
helpers mirroring `str.split`, `str.strip`, `str.lower`, `str.title` and
substring search; Python floats, which in this code only ever carry decimal
constants combined by sums, products, `min` and comparisons, are modelled as
exact rationals `ℚ`; Python ints as `ℕ`; `None`-able values as `Option`;
`Dict[str, Any]` payloads as association lists of strings.
-/

namespace MedicalIDP

/-- Characterwise embedding of Python `str.lower` (the data here is ASCII). -/
def lowerStr (s : String) : String :=
  (s.toList.map Char.toLower).asString

/-- Embedding of Python's substring test `pat in s`: `pat` occurs
contiguously somewhere in `s` (the empty pattern occurs in every string,
as in Python). -/
def strContains (s pat : String) : Bool :=
  (List.range (s.toList.length + 1)).any (fun i => pat.toList.isPrefixOf (s.toList.drop i))

/-- Helper for `titleCase`: the boolean records whether the previous character
was alphabetic. -/
def titleCaseAux : List Char → Bool → List Char
  | [], _ => []
  | c :: rest, prevAlpha =>
    (if c.isAlpha then (if prevAlpha then c.toLower else c.toUpper) else c) ::
      titleCaseAux rest c.isAlpha

/-- Embedding of Python `str.title`: uppercase every alphabetic character that
follows a non-alphabetic one, lowercase the rest. -/
def titleCase (s : String) : String :=
  (titleCaseAux s.toList false).asString

/-- Helper for `splitComma`, accumulating the current (reversed) field. -/
def splitCommaAux : List Char → List Char → List String
  | [], cur => [cur.reverse.asString]
  | c :: rest, cur =>
    if c = ',' then cur.reverse.asString :: splitCommaAux rest []
    else splitCommaAux rest (c :: cur)

/-- Embedding of Python `s.split(',')`. -/
def splitComma (s : String) : List String :=
  splitCommaAux s.toList []

/-- Embedding of Python `str.strip`: drop whitespace from both ends. -/
def trimStr (s : String) : String :=
  (((s.toList.dropWhile Char.isWhitespace).reverse.dropWhile Char.isWhitespace).reverse).asString

/-- All start indices of non-overlapping, leftmost occurrences of `pat` in `s`,
mirroring `re.finditer` for a literal pattern (the patterns used by the parser
are literal once text is lowercased).  The search resumes after the end of
each match.  `re.finditer` with an empty pattern never arises here; we return
`[]` for it so the function is total. -/
def findOcc (pat : List Char) : List Char → Nat → List Nat
  | [], _ => []
  | c :: rest, i =>
    if pat ≠ [] ∧ pat.isPrefixOf (c :: rest) then
      i :: findOcc pat (rest.drop (pat.length - 1)) (i + pat.length)
    else
      findOcc pat rest (i + 1)
  termination_by s _ => s.length
  decreasing_by
    · simp only [List.length_cons, List.length_drop]; omega
    · simp only [List.length_cons]; omega

/-! ## Data model of `src/document_parser.py` -/

/-- `MedicalCapability` (document_parser.py, lines 13-20): an extracted
capability claim with citation. -/
structure MedicalCapability where
  capability_type : String
  name : String
  status : String
  confidence : ℚ
  source_text : String
  facility_id : String
  deriving DecidableEq, Repr

/-- `FacilityProfile` (document_parser.py, lines 23-47). -/
structure FacilityProfile where
  facility_id : String
  facility_name : String
  region : String
  district : String
  coordinates : ℚ × ℚ
  facility_type : String
  specialties : List String
  equipment : List String
  procedures : List String
  gaps : List String
  urgent_needs : List String
  suspicious_claims : List String
  capabilities : List MedicalCapability
  capability_score : ℚ
  desert_risk_score : ℚ
  deriving DecidableEq, Repr

/-- One input row of the facility CSV.  `pandas` stringification
(`str(row.get(...))`) is modelled by the free-text fields already being
strings; a missing cell arrives as the string `"nan"`. -/
structure Row where
  facility_id : String
  facility_name : String
  region : String
  district : String
  facility_type : String
  latitude : ℚ
  longitude : ℚ
  specialties : String
  equipment : String
  procedures : String
  staff_notes : String
  deriving DecidableEq, Repr

/-- The `text_fields` dict built in `extract_capabilities`
(document_parser.py, lines 114-119). -/
structure TextFields where
  specialties : String
  equipment : String
  procedures : String
  staff_notes : String
  deriving DecidableEq, Repr

def mkTextFields (row : Row) : TextFields :=
  ⟨row.specialties, row.equipment, row.procedures, row.staff_notes⟩

/-- The freshly initialised profile of `extract_capabilities`
(document_parser.py, lines 103-111): pydantic defaults give empty lists and
zero scores. -/
def initProfile (row : Row) : FacilityProfile :=
  { facility_id := row.facility_id
    facility_name := row.facility_name
    region := row.region
    district := row.district
    coordinates := (row.latitude, row.longitude)
    facility_type := row.facility_type
    specialties := []
    equipment := []
    procedures := []
    gaps := []
    urgent_needs := []
    suspicious_claims := []
    capabilities := []
    capability_score := 0
    desert_risk_score := 0 }

/-- `IntelligentDocumentParser._extract_structured_fields`
(document_parser.py, lines 137-185): split each non-empty comma-joined field,
strip the items, store them as the plain name lists, and append one
`available` capability of confidence 0.95 per item. -/
def extractStructuredFields (profile : FacilityProfile) (tf : TextFields)
    (facility_id : String) : FacilityProfile :=
  let profile :=
    if tf.specialties ≠ "" then
      let specialties := (splitComma tf.specialties).map trimStr
      { profile with
        specialties := specialties
        capabilities := profile.capabilities ++ specialties.map (fun spec =>
          { capability_type := "specialty", name := spec, status := "available"
            confidence := 19/20, source_text := tf.specialties
            facility_id := facility_id }) }
    else profile
  let profile :=
    if tf.equipment ≠ "" then
      let equipment := (splitComma tf.equipment).map trimStr
      { profile with
        equipment := equipment
        capabilities := profile.capabilities ++ equipment.map (fun eq =>
          { capability_type := "equipment", name := eq, status := "available"
            confidence := 19/20, source_text := tf.equipment
            facility_id := facility_id }) }
    else profile
  let profile :=
    if tf.procedures ≠ "" then
      let procedures := (splitComma tf.procedures).map trimStr
      { profile with
        procedures := procedures
        capabilities := profile.capabilities ++ procedures.map (fun proc =>
          { capability_type := "procedure", name := proc, status := "available"
            confidence := 19/20, source_text := tf.procedures
            facility_id := facility_id }) }
    else profile
  profile

/-- The parser's specialty vocabulary (document_parser.py, lines 69-73).
All patterns are literals; matching them with `re.IGNORECASE` against the
lowercased notes is matching the lowercase literal. -/
def specialtyPatterns : List String :=
  ["cardiology", "neurosurgery", "oncology", "pediatrics", "orthopedics",
   "obstetrics", "internal medicine", "emergency", "ophthalmology",
   "dentistry", "general medicine", "surgery"]

/-- The parser's equipment vocabulary (document_parser.py, lines 75-79); the
character classes (`CT [Ss]canner`, `X-[Rr]ay`, `[Uu]ltrasound`) collapse to
lowercase literals on lowercased text. -/
def equipmentPatterns : List String :=
  ["mri", "ct scanner", "x-ray", "ultrasound", "ventilator", "icu",
   "operating theater", "catheterization lab", "blood bank", "laboratory",
   "ambulance"]

/-- `IntelligentDocumentParser._extract_from_notes`
(document_parser.py, lines 187-237).  For every (non-overlapping) match of a
vocabulary term in the lowercased notes: specialties not already present among
the structured specialty names are appended as `mentioned` claims of
confidence 0.7; every equipment match is appended with a status read from a
±50-character context window (`broken`, `unavailable` for a preceding `no `,
otherwise `available`) and confidence 0.8.  No deduplication happens here:
each regex match appends its own entry. -/
def extractFromNotes (profile : FacilityProfile) (notes : String)
    (facility_id : String) : FacilityProfile :=
  if notes = "" ∨ notes = "nan" then profile
  else
    let notesLower := lowerStr notes
    let profile := specialtyPatterns.foldl (fun pr pat =>
      (findOcc pat.toList notesLower.toList 0).foldl (fun pr _i =>
        if (pr.specialties.map lowerStr).contains pat then pr
        else
          { pr with capabilities := pr.capabilities ++
              [{ capability_type := "specialty", name := titleCase pat
                 status := "mentioned", confidence := 7/10
                 source_text := notes, facility_id := facility_id }] }) pr) profile
    equipmentPatterns.foldl (fun pr pat =>
      (findOcc pat.toList notesLower.toList 0).foldl (fun pr i =>
        let cs := i - 50
        let ce := min notes.toList.length (i + pat.length + 50)
        let context := lowerStr ((notes.toList.drop cs).take (ce - cs)).asString
        let status :=
          if strContains context "broke" || strContains context "broken" ||
              strContains context "not working" then "broken"
          else if strContains context ("no " ++ pat) then "unavailable"
          else "available"
        { pr with capabilities := pr.capabilities ++
            [{ capability_type := "equipment", name := pat, status := status
               confidence := 4/5, source_text := context
               facility_id := facility_id }] }) pr) profile

/-- Steps 1 and 2 of `IntelligentDocumentParser.extract_capabilities`
(document_parser.py, lines 96-135): structured-field extraction followed by
notes extraction.  Steps 3 and 4 (`_detect_gaps`, lines 239-283, and
`_compute_scores`, lines 285-327) never modify `profile.capabilities`, so the
capability list of the full pipeline result is exactly the capability list of
this pass. -/
def extractCapabilityPass (row : Row) : FacilityProfile :=
  let profile := initProfile row
  let tf := mkTextFields row
  let profile := extractStructuredFields profile tf row.facility_id
  extractFromNotes profile tf.staff_notes row.facility_id

/-- The facility-type weight table of `_compute_scores`
(document_parser.py, lines 294-300): `type_weights.get(facility_type, 0.3)`. -/
def typeWeights (facility_type : String) : ℚ :=
  if facility_type = "Teaching Hospital" then 1
  else if facility_type = "Regional Hospital" then 7/10
  else if facility_type = "District Hospital" then 2/5
  else if facility_type = "Mission Hospital" then 1/2
  else 3/10

/-- The critical-equipment list of `_compute_scores`
(document_parser.py, line 322). -/
def criticalMissingList : List String :=
  ["CT Scanner", "MRI", "ICU", "Operating Theater"]

/-- `IntelligentDocumentParser._compute_scores`
(document_parser.py, lines 285-327), mirroring the Python statement order:
capability score first, then the desert-risk factors accumulated by `+=`. -/
def computeScores (profile : FacilityProfile) : FacilityProfile :=
  let specialty_count := profile.specialties.length
  let equipment_count := profile.equipment.length
  let procedure_count := profile.procedures.length
  let base_weight := typeWeights profile.facility_type
  let capability_score : ℚ :=
    min 100 (((specialty_count * 5 + equipment_count * 3 + procedure_count * 2 : ℕ) : ℚ)
      * base_weight)
  let desert_factors : ℕ :=
    if capability_score < 30 then 30
    else if capability_score < 50 then 15
    else 0
  let desert_factors := desert_factors + min 30 (profile.gaps.length * 5)
  let desert_factors := criticalMissingList.foldl (fun acc critical =>
    if ! profile.equipment.any (fun eq => strContains (lowerStr eq) (lowerStr critical)) then
      acc + 10
    else acc) desert_factors
  { profile with
    capability_score := capability_score
    desert_risk_score := ((min 100 desert_factors : ℕ) : ℚ) }

/-! ## Medical-desert aggregation (`identify_medical_deserts`,
document_parser.py, lines 345-378) -/

/-- One output record of `identify_medical_deserts`.  `critical_gaps` is
`list(set(...))` in Python, whose iteration order is unspecified; it is
modelled as first-occurrence deduplication. -/
structure DesertEntry where
  region : String
  desert_risk_score : ℚ
  avg_capability_score : ℚ
  facility_count : Nat
  total_gaps : Nat
  facilities : List String
  critical_gaps : List String
  deriving DecidableEq, Repr

/-- One iteration of the grouping loop (document_parser.py, lines 353-358):
the insertion-ordered dict `region_data` is an association list; a profile is
appended to its region's entry, or a fresh entry is added at the end. -/
def insertG (acc : List (String × List FacilityProfile)) (p : FacilityProfile) :
    List (String × List FacilityProfile) :=
  match acc with
  | [] => [(p.region, [p])]
  | (r, fs) :: rest =>
    if r = p.region then (r, fs ++ [p]) :: rest
    else (r, fs) :: insertG rest p

/-- The `region_data` grouping of `identify_medical_deserts`. -/
def regionGroups (profiles : List FacilityProfile) :
    List (String × List FacilityProfile) :=
  profiles.foldl insertG []

/-- Average desert-risk score of a group of facilities
(document_parser.py, line 362): `sum(...) / len(facilities)`. -/
def avgDesertRisk (facilities : List FacilityProfile) : ℚ :=
  (facilities.map (fun f => f.desert_risk_score)).sum / (facilities.length : ℚ)

/-- Average capability score of a group (document_parser.py, line 363). -/
def avgCapability (facilities : List FacilityProfile) : ℚ :=
  (facilities.map (fun f => f.capability_score)).sum / (facilities.length : ℚ)

/-- The per-region body of `identify_medical_deserts`
(document_parser.py, lines 361-376): emit an entry only when the average
desert-risk score meets the threshold. -/
def mkDesertEntry (threshold : ℚ) (g : String × List FacilityProfile) :
    Option DesertEntry :=
  if threshold ≤ avgDesertRisk g.2 then
    some { region := g.1
           desert_risk_score := avgDesertRisk g.2
           avg_capability_score := avgCapability g.2
           facility_count := g.2.length
           total_gaps := (g.2.map (fun f => f.gaps.length)).sum
           facilities := g.2.map (fun f => f.facility_name)
           critical_gaps := ((g.2.map (fun f => f.gaps)).flatten).eraseDups }
  else none

/-- Stable descending insertion by desert-risk score. -/
def insertDesc (d : DesertEntry) : List DesertEntry → List DesertEntry
  | [] => [d]
  | e :: rest =>
    if e.desert_risk_score < d.desert_risk_score then d :: e :: rest
    else e :: insertDesc d rest

/-- `sorted(deserts, key=..., reverse=True)` (document_parser.py, line 378):
a stable descending sort by desert-risk score. -/
def sortByRiskDesc (l : List DesertEntry) : List DesertEntry :=
  l.foldl (fun acc d => insertDesc d acc) []

/-- `identify_medical_deserts` (document_parser.py, lines 345-378). -/
def identifyMedicalDeserts (profiles : List FacilityProfile) (threshold : ℚ) :
    List DesertEntry :=
  sortByRiskDesc ((regionGroups profiles).filterMap (mkDesertEntry threshold))

/-- The facilities of `profiles` lying in region `r`; by
`regionGroups_spec` below this is exactly the group that
`identify_medical_deserts` averages over. -/
def regionFacilities (profiles : List FacilityProfile) (r : String) :
    List FacilityProfile :=
  profiles.filter (fun p => p.region == r)

/-! ## `src/extraction_agent.py` -/

/-- `ExtractedCapability` (extraction_agent.py, lines 13-21). -/
structure ExtractedCapability where
  capability_type : String
  name : String
  details : Option String
  quantity : Option Nat
  status : Option String
  confidence : ℚ
  deriving DecidableEq, Repr

/-- The dictionary key used by `_deduplicate_capabilities`:
`cap.name.lower()`. -/
def capKey (cap : ExtractedCapability) : String :=
  lowerStr cap.name

/-- One iteration of `_deduplicate_capabilities`
(extraction_agent.py, lines 332-341): the insertion-ordered dict `seen` is an
association list; `seen[key] = cap` replaces the value in place when
`cap.confidence > seen[key].confidence`, otherwise the existing entry wins;
a new key is appended at the end. -/
def dedupInsert (seen : List (String × ExtractedCapability))
    (cap : ExtractedCapability) : List (String × ExtractedCapability) :=
  match seen with
  | [] => [(capKey cap, cap)]
  | (k, c) :: rest =>
    if k = capKey cap then
      (if c.confidence < cap.confidence then (k, cap) else (k, c)) :: rest
    else
      (k, c) :: dedupInsert rest cap

/-- `ExtractionAgent._deduplicate_capabilities`
(extraction_agent.py, lines 332-341): fold the candidates into the dict and
return `list(seen.values())`. -/
def deduplicateCapabilities (capabilities : List ExtractedCapability) :
    List ExtractedCapability :=
  (capabilities.foldl dedupInsert []).map Prod.snd

/-- One item of the JSON array the suggestion provider is asked for:
`[{"name": ..., "volume": number or null, "complexity": ... or null}]`. -/
structure ProcItem where
  name : String
  volume : Option Nat
  complexity : Option String
  deriving DecidableEq, Repr

/-- `ExtractionAgent._llm_extract_procedures`
(extraction_agent.py, lines 168-215).  The external call is modelled by
`provider`, returning either the response text or the message of a raised
exception; `parseJson` models `json.loads` plus the field accesses of the
list comprehension, returning `none` when any of that fails (malformed JSON,
wrong shape, missing `name` key).  Both failure paths and text shorter than
20 characters return the empty list; the function is total, so this path
cannot raise. -/
def llmExtractProcedures (provider : String → Except String String)
    (parseJson : String → Option (List ProcItem)) (text : String) :
    List ExtractedCapability :=
  if text = "" ∨ text.length < 20 then []
  else
    match provider text with
    | .error _ => []
    | .ok response =>
      match parseJson (trimStr response) with
      | none => []
      | some items =>
        items.map (fun p =>
          { capability_type := "procedure", name := p.name
            details := p.complexity, quantity := p.volume, status := none
            confidence := 4/5 })

/-! ## `src/citation_tracker.py` -/

/-- `Dict[str, Any]` payloads (step inputs and outputs) are modelled as
association lists of strings; the empty dict is `[]`. -/
abbrev Data := List (String × String)

/-- `Citation` (citation_tracker.py, lines 12-21). -/
structure Citation where
  source_type : String
  facility_id : Option String
  facility_name : Option String
  field_name : Option String
  field_value : Option String
  row_number : Option Nat
  confidence : ℚ
  deriving DecidableEq, Repr

/-- `AgentStep` (citation_tracker.py, lines 35-45).  The wall-clock
`timestamp` field is outside the embedding. -/
structure AgentStep where
  step_number : Nat
  step_name : String
  step_description : String
  input_data : Data
  output_data : Data
  citations : List Citation
  duration_ms : Option ℚ
  deriving DecidableEq, Repr

/-- `CitationTracker` state (citation_tracker.py, lines 64-69). -/
structure CitationTracker where
  steps : List AgentStep
  current_step_number : Nat
  deriving DecidableEq, Repr

/-- A fresh tracker: `steps = []`, `current_step_number = 0`. -/
def CitationTracker.init : CitationTracker :=
  { steps := [], current_step_number := 0 }

/-- `CitationTracker.start_step` (citation_tracker.py, lines 71-82):
increment the counter, append a step with empty output and no citations, and
return the new step number. -/
def startStep (t : CitationTracker) (step_name step_description : String)
    (input_data : Data) : CitationTracker × Nat :=
  let n := t.current_step_number + 1
  ({ steps := t.steps ++
      [{ step_number := n, step_name := step_name
         step_description := step_description, input_data := input_data
         output_data := [], citations := [], duration_ms := none }]
     current_step_number := n }, n)

/-- The mutation performed by `end_step` through `_get_step`
(citation_tracker.py, lines 84-89 and 119-124): the first step whose number
matches is updated; if none matches nothing happens. -/
def setStepOutput (steps : List AgentStep) (n : Nat) (out : Data)
    (dur : Option ℚ) : List AgentStep :=
  match steps with
  | [] => []
  | s :: rest =>
    if s.step_number = n then
      { s with output_data := out, duration_ms := dur } :: rest
    else
      s :: setStepOutput rest n out dur

/-- `CitationTracker.end_step` (citation_tracker.py, lines 84-89). -/
def endStep (t : CitationTracker) (n : Nat) (out : Data) (dur : Option ℚ) :
    CitationTracker :=
  { t with steps := setStepOutput t.steps n out dur }

/-- The mutation performed by `add_citation_to_step`
(citation_tracker.py, lines 91-95): append the citation to the first step
whose number matches; if none matches nothing happens. -/
def addCitationAux (steps : List AgentStep) (n : Nat) (c : Citation) :
    List AgentStep :=
  match steps with
  | [] => []
  | s :: rest =>
    if s.step_number = n then
      { s with citations := s.citations ++ [c] } :: rest
    else
      s :: addCitationAux rest n c

/-- `CitationTracker.add_citation_to_step` (citation_tracker.py,
lines 91-95). -/
def addCitationToStep (t : CitationTracker) (n : Nat) (c : Citation) :
    CitationTracker :=
  { t with steps := addCitationAux t.steps n c }

/-- The mutating operations a client can perform on one tracker instance, for
reasoning about arbitrary interleavings. -/
inductive Op where
  | start (step_name step_description : String) (input_data : Data)
  | finish (n : Nat) (out : Data) (dur : Option ℚ)
  | cite (n : Nat) (c : Citation)

/-- Run a sequence of operations on a tracker, collecting the step numbers
returned by the `start_step` calls in order. -/
def runOps (t : CitationTracker) : List Op → CitationTracker × List Nat
  | [] => (t, [])
  | .start nm ds inp :: ops =>
    let p := startStep t nm ds inp
    let rest := runOps p.1 ops
    (rest.1, p.2 :: rest.2)
  | .finish n out dur :: ops => runOps (endStep t n out dur) ops
  | .cite n c :: ops => runOps (addCitationToStep t n c) ops

/-- Number of `start_step` calls in an operation sequence. -/
def countStart : List Op → Nat
  | [] => 0
  | .start _ _ _ :: ops => countStart ops + 1
  | .finish _ _ _ :: ops => countStart ops
  | .cite _ _ :: ops => countStart ops

/-! ## `src/orchestrator.py` -/

/-- `AgentState` (orchestrator.py, lines 17-43).  Facility records and
analysis payloads are opaque `Data` dicts. -/
structure AgentState where
  query : String
  raw_facilities_data : List Data
  intent : Option String
  entities : Option Data
  extracted_facilities : List Data
  analysis_results : Option Data
  matching_facilities : List Data
  response : Option String
  citation_tracker : CitationTracker
  processing_time_ms : ℚ
  errors : List String
  deriving DecidableEq, Repr

/-- The initial state built by `process_query`
(orchestrator.py, lines 101-115). -/
def initialState (query : String) (records : List Data) : AgentState :=
  { query := query
    raw_facilities_data := records
    intent := none
    entities := none
    extracted_facilities := []
    analysis_results := none
    matching_facilities := []
    response := none
    citation_tracker := CitationTracker.init
    processing_time_ms := 0
    errors := [] }

/-- The result dict returned by `process_query`.  Each field that appears
only in one of the two return branches is an `Option`: `none` models the key
being absent from the returned dict.  The structured citation export is
modelled by the tracker itself; the derived human-readable report string is a
pure rendering of it and is not modelled separately. -/
structure QueryResult where
  error : Option String
  query : String
  response : Option (Option String)
  intent : Option (Option String)
  entities : Option (Option Data)
  matching_facilities : Option (List Data)
  analysis_results : Option (Option Data)
  citations : Option CitationTracker
  processing_time_ms : ℚ
  errors : Option (List String)
  deriving DecidableEq, Repr

/-- `MedicalIDPOrchestrator._format_output` (orchestrator.py,
lines 438-451). -/
def formatOutput (state : AgentState) : QueryResult :=
  { error := none
    query := state.query
    response := some state.response
    intent := some state.intent
    entities := some state.entities
    matching_facilities := some state.matching_facilities
    analysis_results := some state.analysis_results
    citations := some state.citation_tracker
    processing_time_ms := state.processing_time_ms
    errors := some state.errors }

/-- The compiled LangGraph workflow (orchestrator.py, lines 65-82): the four
node functions run strictly in sequence, and an exception raised inside any
node aborts the run.  A node is modelled as a function returning either the
updated state or the message of the raised exception. -/
def runGraph (n1 n2 n3 n4 : AgentState → Except String AgentState)
    (s : AgentState) : Except String AgentState :=
  match n1 s with
  | .error e => .error e
  | .ok s1 =>
    match n2 s1 with
    | .error e => .error e
    | .ok s2 =>
      match n3 s2 with
      | .error e => .error e
      | .ok s3 => n4 s3

/-- `MedicalIDPOrchestrator.process_query` (orchestrator.py, lines 84-131):
run the graph inside `try`; on success stamp the elapsed time and format the
output, on any exception return the dict
`{"error": str(e), "query": query, "processing_time_ms": ...}`.  Wall-clock
elapsed time is the parameter `elapsed`. -/
def processQuery (graph : AgentState → Except String AgentState)
    (query : String) (records : List Data) (elapsed : ℚ) : QueryResult :=
  match graph (initialState query records) with
  | .ok finalState => formatOutput { finalState with processing_time_ms := elapsed }
  | .error e =>
    { error := some e
      query := query
      response := none
      intent := none
      entities := none
      matching_facilities := none
      analysis_results := none
      citations := none
      processing_time_ms := elapsed
      errors := none }

/-! ## Concrete example data -/

/-- The structured-only District Hospital scenario of the specification:
two specialties, equipment "CT Scanner" and "ICU", no procedures, and (for
the desert-risk scenario) exactly two detected gaps. -/
def districtExample : FacilityProfile :=
  { facility_id := "GH-042"
    facility_name := "Demo District Hospital"
    region := "Northern"
    district := "Tamale"
    coordinates := (0, 0)
    facility_type := "District Hospital"
    specialties := ["Cardiology", "General Surgery"]
    equipment := ["CT Scanner", "ICU"]
    procedures := []
    gaps := ["Staff shortage: neurosurgeons", "MRI broken/awaiting repair"]
    urgent_needs := []
    suspicious_claims := []
    capabilities := []
    capability_score := 0
    desert_risk_score := 0 }

/-! ## Scoring engine lemmas and theorems -/

lemma typeWeights_nonneg (t : String) : 0 ≤ typeWeights t := by
  unfold typeWeights
  split_ifs <;> norm_num

/-- The critical-equipment `foldl` of `_compute_scores` adds 10 for each
missing critical item. -/
lemma foldl_crit (p : FacilityProfile) (a : ℕ) (l : List String) :
    l.foldl (fun acc critical =>
      if ! p.equipment.any (fun eq => strContains (lowerStr eq) (lowerStr critical)) then
        acc + 10
      else acc) a
    = a + 10 * (l.filter (fun critical =>
        ! p.equipment.any (fun eq => strContains (lowerStr eq) (lowerStr critical)))).length := by
  induction l generalizing a with
  | nil => simp
  | cons c l ih =>
    by_cases h : (! p.equipment.any fun eq => strContains (lowerStr eq) (lowerStr c)) = true
    · simp only [List.foldl_cons, List.filter_cons, h, if_pos]
      rw [ih]
      simp [Nat.mul_succ]
      omega
    · simp only [List.foldl_cons, List.filter_cons, h, if_neg]
      rw [ih]
      simp at h
      simp [h]

/-- The capability-score half of `_compute_scores`, in the statement order of
the source. -/
lemma capability_formula (p : FacilityProfile) :
    (computeScores p).capability_score =
      min 100 (((p.specialties.length * 5 + p.equipment.length * 3 +
        p.procedures.length * 2 : ℕ) : ℚ) * typeWeights p.facility_type) := by
  simp only [computeScores]

/-- The desert-risk half of `_compute_scores`, with the critical-equipment
`foldl` rewritten as a count of missing items. -/
lemma desert_formula (p : FacilityProfile) :
    (computeScores p).desert_risk_score =
      ((min 100
        ((if (computeScores p).capability_score < 30 then 30
          else if (computeScores p).capability_score < 50 then 15 else 0)
         + min 30 (p.gaps.length * 5)
         + 10 * (criticalMissingList.filter (fun critical =>
             ! p.equipment.any (fun eq =>
               strContains (lowerStr eq) (lowerStr critical)))).length) : ℕ) : ℚ) := by
  simp only [computeScores]
  rw [foldl_crit]

/-- The District Hospital example scores (2·5 + 2·3)·0.4 = 6.4. -/
lemma districtExample_capability :
    (computeScores districtExample).capability_score = 32/5 := by
  rw [capability_formula]
  have h1 : districtExample.specialties.length = 2 := rfl
  have h2 : districtExample.equipment.length = 2 := rfl
  have h3 : districtExample.procedures.length = 0 := rfl
  have h4 : districtExample.facility_type = "District Hospital" := rfl
  rw [h1, h2, h3, h4]
  simp [typeWeights]
  norm_num

/-- Claim C3: for every facility profile, the capability score is
`min(100, (5·|specialties| + 3·|equipment| + 2·|procedures|) × type_weight)`,
with the fixed weight lookup (Teaching 1.0, Regional 0.7, Mission 0.5,
District 0.4, default 0.3); in particular the two-specialty, two-equipment
District Hospital scores (2·5 + 2·3)·0.4 = 6.4. -/
theorem compute_scores_capability :
    (∀ p : FacilityProfile,
      (computeScores p).capability_score =
        min 100 (((5 * p.specialties.length + 3 * p.equipment.length +
          2 * p.procedures.length : ℕ) : ℚ) * typeWeights p.facility_type)) ∧
    typeWeights "Teaching Hospital" = 1 ∧
    typeWeights "Regional Hospital" = 7/10 ∧
    typeWeights "Mission Hospital" = 1/2 ∧
    typeWeights "District Hospital" = 2/5 ∧
    (∀ t : String,
      t ∉ ["Teaching Hospital", "Regional Hospital", "Mission Hospital",
           "District Hospital"] → typeWeights t = 3/10) ∧
    (computeScores districtExample).capability_score = 32/5 := by
  refine ⟨?_, by simp [typeWeights], by simp [typeWeights], by simp [typeWeights],
    by simp [typeWeights], ?_, districtExample_capability⟩
  · intro p
    rw [capability_formula p]
    have h : p.specialties.length * 5 + p.equipment.length * 3 + p.procedures.length * 2
        = 5 * p.specialties.length + 3 * p.equipment.length + 2 * p.procedures.length := by
      ring
    rw [h]
  · intro t ht
    simp only [List.mem_cons, List.not_mem_nil, or_false, not_or] at ht
    obtain ⟨h1, h2, h3, h4⟩ := ht
    simp [typeWeights, h1, h2, h3, h4]

/-- A closed instance of the hypothesis-bearing part of
`compute_scores_capability`: an unknown facility type gets the default
weight 0.3. -/
theorem compute_scores_capability_witness :
    typeWeights "Community Clinic" = 3/10 ∧
    (computeScores districtExample).capability_score = 32/5 := by
  obtain ⟨-, -, -, -, -, hweight, hconc⟩ := compute_scores_capability
  exact ⟨hweight "Community Clinic" (by decide), hconc⟩

/-- Claim C2: for every facility profile, the desert-risk score is
`min(100, base + gap_penalty + missing_critical_penalty)` with base 30/15/0
by capability-score band, gap penalty `min(30, 5·|gaps|)` and 10 points per
critical equipment item (CT scanner, MRI, ICU, operating theater) not present
by case-insensitive substring match in the equipment list; in particular the
District Hospital example (capability 6.4, two gaps, CT scanner and ICU
present) scores 30 + 10 + 20 = 60. -/
theorem compute_scores_desert_risk :
    (∀ p : FacilityProfile,
      (computeScores p).desert_risk_score =
        ((min 100
          ((if (computeScores p).capability_score < 30 then 30
            else if (computeScores p).capability_score < 50 then 15 else 0)
           + min 30 (5 * p.gaps.length)
           + 10 * (criticalMissingList.filter (fun critical =>
               ! p.equipment.any (fun eq =>
                 strContains (lowerStr eq) (lowerStr critical)))).length) : ℕ) : ℚ)) ∧
    (computeScores districtExample).desert_risk_score = 60 := by
  constructor
  · intro p
    rw [desert_formula p, Nat.mul_comm p.gaps.length 5]
  · rw [desert_formula, districtExample_capability]
    have hfil : (criticalMissingList.filter (fun critical =>
        ! districtExample.equipment.any (fun eq =>
          strContains (lowerStr eq) (lowerStr critical)))).length = 2 := by decide
    have hg : districtExample.gaps.length = 2 := rfl
    rw [hfil, hg]
    norm_num

/-- Claim C5: every profile produced by the pipeline has both scores in
[0, 100].  `_compute_scores` is the last step of `extract_capabilities` and
the only writer of either score, so this covers every pipeline result. -/
theorem compute_scores_bounded (p : FacilityProfile) :
    0 ≤ (computeScores p).capability_score ∧
    (computeScores p).capability_score ≤ 100 ∧
    0 ≤ (computeScores p).desert_risk_score ∧
    (computeScores p).desert_risk_score ≤ 100 := by
  simp only [computeScores]
  refine ⟨?_, ?_, ?_, ?_⟩
  · exact le_min (by norm_num) (mul_nonneg (Nat.cast_nonneg _) (typeWeights_nonneg _))
  · exact min_le_left _ _
  · exact Nat.cast_nonneg _
  · rw [Nat.cast_min]
    exact min_le_of_left_le (by norm_num)

/-! ## Claim C1: deduplication of capability claims -/

/-- The deduplication invariant the specification asserts for a facility's
capability list, stated from the specification's wording: no two entries
share the same (facility_id, lowercased name). -/
def capsDeduplicated (caps : List MedicalCapability) : Prop :=
  List.Pairwise (fun a b =>
    ¬ (a.facility_id = b.facility_id ∧ lowerStr a.name = lowerStr b.name)) caps

/-- A facility row whose structured fields mention "Surgery" both as a
specialty and as a procedure. -/
def cexRow : Row :=
  { facility_id := "F1"
    facility_name := "Clinic A"
    region := "Northern"
    district := "Tamale"
    facility_type := "Clinic"
    latitude := 0
    longitude := 0
    specialties := "Surgery"
    equipment := ""
    procedures := "Surgery"
    staff_notes := "" }

/-- Evaluating the extraction pass on `cexRow`: the (facility_id, lowercased
name) pairs of the produced capability list. -/
lemma cexRow_caps_pairs :
    ((extractCapabilityPass cexRow).capabilities).map
      (fun c => (c.facility_id, lowerStr c.name)) =
    [("F1", "surgery"), ("F1", "surgery")] := rfl

/-- Claim C1 counterexample: the document parser's pipeline never
deduplicates `profile.capabilities`; on `cexRow` it emits two entries with
the same (facility_id, lowercased name). -/
theorem parser_capabilities_not_deduplicated :
    ¬ capsDeduplicated (extractCapabilityPass cexRow).capabilities := by
  intro h
  have h2 : List.Pairwise (fun a b : String × String => ¬ (a.1 = b.1 ∧ a.2 = b.2))
      (((extractCapabilityPass cexRow).capabilities).map
        (fun c => (c.facility_id, lowerStr c.name))) := by
    rw [List.pairwise_map]
    exact h
  rw [cexRow_caps_pairs] at h2
  have h3 := (List.pairwise_cons.mp h2).1 ("F1", "surgery") (by simp)
  exact h3 ⟨rfl, rfl⟩

/-- Invariant carried through the fold of `_deduplicate_capabilities`:
mutually distinct keys, each key the lowercased name of its entry, each
retained entry one of the processed candidates with maximal confidence for
its key, and every processed key represented. -/
def dedupInv (processed : List ExtractedCapability)
    (seen : List (String × ExtractedCapability)) : Prop :=
  (seen.map Prod.fst).Nodup ∧
  (∀ g ∈ seen, g.1 = capKey g.2) ∧
  (∀ g ∈ seen, g.2 ∈ processed) ∧
  (∀ g ∈ seen, ∀ c ∈ processed, capKey c = g.1 → c.confidence ≤ g.2.confidence) ∧
  (∀ c ∈ processed, capKey c ∈ seen.map Prod.fst)

lemma dedupInsert_keys (seen : List (String × ExtractedCapability))
    (cap : ExtractedCapability) :
    (dedupInsert seen cap).map Prod.fst =
      if capKey cap ∈ seen.map Prod.fst then seen.map Prod.fst
      else seen.map Prod.fst ++ [capKey cap] := by
  induction seen with
  | nil => simp [dedupInsert]
  | cons g rest ih =>
    obtain ⟨k, c⟩ := g
    by_cases hk : k = capKey cap
    · subst hk
      simp [dedupInsert, apply_ite (Prod.fst : String × ExtractedCapability → String)]
    · simp only [dedupInsert, if_neg hk, List.map_cons, ih]
      by_cases hmem : capKey cap ∈ rest.map Prod.fst
      · simp [hmem, Ne.symm hk]
      · simp [hmem, Ne.symm hk]

/-- The three per-entry parts of the invariant for a single `dedupInsert`. -/
lemma dedupInsert_entries (cap : ExtractedCapability) :
    ∀ (seen : List (String × ExtractedCapability))
      (processed : List ExtractedCapability),
    (seen.map Prod.fst).Nodup →
    (∀ g ∈ seen, g.1 = capKey g.2) →
    (∀ g ∈ seen, g.2 ∈ processed) →
    (∀ g ∈ seen, ∀ c ∈ processed, capKey c = g.1 → c.confidence ≤ g.2.confidence) →
    (∀ c ∈ processed, capKey c = capKey cap → capKey cap ∈ seen.map Prod.fst) →
    (∀ g ∈ dedupInsert seen cap, g.1 = capKey g.2) ∧
    (∀ g ∈ dedupInsert seen cap, g.2 ∈ processed ++ [cap]) ∧
    (∀ g ∈ dedupInsert seen cap, ∀ c ∈ processed ++ [cap],
      capKey c = g.1 → c.confidence ≤ g.2.confidence) := by
  intro seen
  induction seen with
  | nil =>
    intro processed _ _ _ _ hcov
    refine ⟨by simp [dedupInsert], by simp [dedupInsert], ?_⟩
    intro g hg c hc hkey
    simp only [dedupInsert, List.mem_singleton] at hg
    subst hg
    rcases List.mem_append.mp hc with hc | hc
    · exact absurd (hcov c hc hkey) (by simp)
    · simp only [List.mem_singleton] at hc
      subst hc
      exact le_refl _
  | cons g rest ih =>
    obtain ⟨k, c⟩ := g
    intro processed hnd hkeyc horig hmax hcov
    have hnd' : (rest.map Prod.fst).Nodup := (List.nodup_cons.mp hnd).2
    have hknotin : k ∉ rest.map Prod.fst := (List.nodup_cons.mp hnd).1
    by_cases hk : k = capKey cap
    · subst hk
      have hunfold : dedupInsert ((capKey cap, c) :: rest) cap =
          (if c.confidence < cap.confidence then (capKey cap, cap)
            else (capKey cap, c)) :: rest := by
        simp [dedupInsert]
      rw [hunfold]
      have hkc : capKey cap = capKey c := hkeyc (capKey cap, c) (by simp)
      have hcmem : c ∈ processed := horig (capKey cap, c) (by simp)
      refine ⟨?_, ?_, ?_⟩
      · intro g hg
        rcases List.mem_cons.mp hg with hg | hg
        · subst hg
          split
          · rfl
          · exact hkc
        · exact hkeyc g (by simp [hg])
      · intro g hg
        rcases List.mem_cons.mp hg with hg | hg
        · subst hg
          split
          · simp
          · exact List.mem_append_left _ hcmem
        · exact List.mem_append_left _ (horig g (by simp [hg]))
      · intro g hg d hd hkey
        rcases List.mem_cons.mp hg with hgeq | hgrest
        · subst hgeq
          have h1 : (if c.confidence < cap.confidence then (capKey cap, cap)
              else (capKey cap, c)).1 = capKey cap := by split <;> rfl
          rw [h1] at hkey
          rcases List.mem_append.mp hd with hd1 | hd2
          · have hdc : d.confidence ≤ c.confidence :=
              hmax (capKey cap, c) (by simp) d hd1 hkey
            split
            · next hlt => exact le_trans hdc (le_of_lt hlt)
            · exact hdc
          · simp only [List.mem_singleton] at hd2
            subst hd2
            split
            · exact le_refl _
            · next hnlt => exact not_lt.mp hnlt
        · rcases List.mem_append.mp hd with hd1 | hd2
          · exact hmax g (by simp [hgrest]) d hd1 hkey
          · simp only [List.mem_singleton] at hd2
            subst hd2
            exact absurd (hkey ▸ List.mem_map_of_mem Prod.fst hgrest) hknotin
    · simp only [dedupInsert, if_neg hk]
      have hres := ih processed hnd'
        (fun g hg => hkeyc g (by simp [hg]))
        (fun g hg => horig g (by simp [hg]))
        (fun g hg d hd hkey => hmax g (by simp [hg]) d hd hkey)
        (fun d hd hkey => by
          have := hcov d hd hkey
          simp only [List.map_cons, List.mem_cons] at this
          rcases this with h | h
          · exact absurd h.symm hk
          · exact h)
      obtain ⟨r1, r2, r3⟩ := hres
      refine ⟨?_, ?_, ?_⟩
      · intro g hg
        rcases List.mem_cons.mp hg with hg | hg
        · subst hg
          exact hkeyc (k, c) (by simp)
        · exact r1 g hg
      · intro g hg
        rcases List.mem_cons.mp hg with hg | hg
        · subst hg
          exact List.mem_append_left _ (horig (k, c) (by simp))
        · exact r2 g hg
      · intro g hg d hd hkey
        rcases List.mem_cons.mp hg with hg | hg
        · subst hg
          rcases List.mem_append.mp hd with hd | hd
          · exact hmax (k, c) (by simp) d hd hkey
          · simp only [List.mem_singleton] at hd
            subst hd
            exact absurd hkey.symm hk
        · exact r3 g hg d hd hkey

lemma dedupInv_insert (processed : List ExtractedCapability)
    (cap : ExtractedCapability) (seen : List (String × ExtractedCapability))
    (h : dedupInv processed seen) :
    dedupInv (processed ++ [cap]) (dedupInsert seen cap) := by
  obtain ⟨h1, h2, h3, h4, h5⟩ := h
  obtain ⟨g1, g2, g3⟩ := dedupInsert_entries cap seen processed h1 h2 h3 h4
    (fun d hd hkey => hkey ▸ h5 d hd)
  refine ⟨?_, g1, g2, g3, ?_⟩
  · rw [dedupInsert_keys]
    split
    · exact h1
    · next hmem => simp [List.nodup_append, h1, hmem]
  · intro d hd
    rw [dedupInsert_keys]
    rcases List.mem_append.mp hd with hd | hd
    · split
      · exact h5 d hd
      · exact List.mem_append_left _ (h5 d hd)
    · simp only [List.mem_singleton] at hd
      subst hd
      split
      · next hmem => exact hmem
      · exact List.mem_append_right _ (by simp)

lemma dedupInv_initial : dedupInv [] [] :=
  ⟨by simp, by simp, by simp, by simp, by simp⟩

lemma foldl_dedupInv :
    ∀ (caps : List ExtractedCapability) (processed : List ExtractedCapability)
      (seen : List (String × ExtractedCapability)),
    dedupInv processed seen →
    dedupInv (processed ++ caps) (caps.foldl dedupInsert seen) := by
  intro caps
  induction caps with
  | nil => intro processed seen h; simpa using h
  | cons cap caps ih =>
    intro processed seen h
    have h3 := ih (processed ++ [cap]) (dedupInsert seen cap)
      (dedupInv_insert processed cap seen h)
    simpa [List.append_assoc] using h3

/-- Claim C1, amended: within each list returned by
`ExtractionAgent._deduplicate_capabilities` no two entries share the same
lowercased name, and the retained entry is one of the candidates with the
maximum confidence among all candidates of that name.  (The document
parser's own capability list is not deduplicated, see
`parser_capabilities_not_deduplicated`.) -/
theorem deduplicate_capabilities_spec (capabilities : List ExtractedCapability) :
    List.Pairwise (fun a b => capKey a ≠ capKey b)
      (deduplicateCapabilities capabilities) ∧
    ∀ c ∈ deduplicateCapabilities capabilities,
      c ∈ capabilities ∧
      ∀ d ∈ capabilities, capKey d = capKey c → d.confidence ≤ c.confidence := by
  have h := foldl_dedupInv capabilities [] [] dedupInv_initial
  simp only [List.nil_append] at h
  obtain ⟨h1, h2, h3, h4, -⟩ := h
  constructor
  · have hp : List.Pairwise (fun g g' : String × ExtractedCapability => g.1 ≠ g'.1)
        (capabilities.foldl dedupInsert []) := List.pairwise_map.mp h1
    unfold deduplicateCapabilities
    rw [List.pairwise_map]
    refine hp.imp_of_mem ?_
    intro a b ha hb hne
    rw [h2 a ha, h2 b hb] at hne
    exact hne
  · intro c hc
    unfold deduplicateCapabilities at hc
    obtain ⟨g, hg, rfl⟩ := List.mem_map.mp hc
    refine ⟨h3 g hg, fun d hd hkey => ?_⟩
    exact h4 g hg d hd (by rw [h2 g hg]; exact hkey)

/-- Two candidate capabilities with the same lowercased name. -/
def lowCap : ExtractedCapability :=
  { capability_type := "procedure", name := "cesarean", details := none
    quantity := none, status := none, confidence := 0 }

def highCap : ExtractedCapability :=
  { capability_type := "procedure", name := "Cesarean", details := some "advanced"
    quantity := some 200, status := none, confidence := 1 }

/-- A closed instance of `deduplicate_capabilities_spec`: from the two
same-named candidates, the higher-confidence one is retained, it is one of
the candidates, and its confidence dominates the other's. -/
theorem deduplicate_capabilities_spec_witness :
    highCap ∈ [lowCap, highCap] ∧ lowCap.confidence ≤ highCap.confidence := by
  have h := (deduplicate_capabilities_spec [lowCap, highCap]).2 highCap (by decide)
  exact ⟨h.1, h.2 lowCap (by decide) (by decide)⟩

/-! ## Claim C4: medical-desert aggregation -/

lemma mem_insertDesc (d x : DesertEntry) (l : List DesertEntry) :
    x ∈ insertDesc d l ↔ x = d ∨ x ∈ l := by
  induction l with
  | nil => simp [insertDesc]
  | cons e rest ih =>
    simp only [insertDesc]
    split
    · simp [List.mem_cons]
    · simp only [List.mem_cons, ih]
      tauto

lemma mem_sortAux (l : List DesertEntry) :
    ∀ (acc : List DesertEntry) (x : DesertEntry),
      x ∈ l.foldl (fun acc d => insertDesc d acc) acc ↔ x ∈ acc ∨ x ∈ l := by
  induction l with
  | nil => simp
  | cons d rest ih =>
    intro acc x
    simp only [List.foldl_cons, ih, mem_insertDesc, List.mem_cons]
    tauto

lemma mem_sortByRiskDesc (l : List DesertEntry) (x : DesertEntry) :
    x ∈ sortByRiskDesc l ↔ x ∈ l := by
  unfold sortByRiskDesc
  rw [mem_sortAux]
  simp

lemma insertG_keys (acc : List (String × List FacilityProfile))
    (p : FacilityProfile) :
    (insertG acc p).map Prod.fst =
      if p.region ∈ acc.map Prod.fst then acc.map Prod.fst
      else acc.map Prod.fst ++ [p.region] := by
  induction acc with
  | nil => simp [insertG]
  | cons g rest ih =>
    obtain ⟨r, fs⟩ := g
    by_cases hr : r = p.region
    · subst hr
      simp [insertG]
    · simp only [insertG, if_neg hr, List.map_cons, ih]
      by_cases hmem : p.region ∈ rest.map Prod.fst
      · simp [hmem, Ne.symm hr]
      · simp [hmem, Ne.symm hr]

/-- Where an entry of `insertG acc p` comes from: untouched group of another
region, the (unique) group of `p.region` with `p` appended, or a fresh
singleton group. -/
lemma insertG_mem (acc : List (String × List FacilityProfile))
    (p : FacilityProfile) (hnd : (acc.map Prod.fst).Nodup) :
    ∀ g ∈ insertG acc p,
      (g ∈ acc ∧ g.1 ≠ p.region) ∨
      (∃ fs, (p.region, fs) ∈ acc ∧ g = (p.region, fs ++ [p])) ∨
      (p.region ∉ acc.map Prod.fst ∧ g = (p.region, [p])) := by
  induction acc with
  | nil =>
    intro g hg
    simp only [insertG, List.mem_singleton] at hg
    exact Or.inr (Or.inr ⟨by simp, hg⟩)
  | cons q rest ih =>
    obtain ⟨r, fs⟩ := q
    have hnd' : (rest.map Prod.fst).Nodup := (List.nodup_cons.mp hnd).2
    have hrnotin : r ∉ rest.map Prod.fst := (List.nodup_cons.mp hnd).1
    intro g hg
    by_cases hr : r = p.region
    · subst hr
      rw [show insertG ((p.region, fs) :: rest) p = (p.region, fs ++ [p]) :: rest from
        by simp [insertG]] at hg
      rcases List.mem_cons.mp hg with hgeq | hgrest
      · exact Or.inr (Or.inl ⟨fs, by simp, hgeq⟩)
      · refine Or.inl ⟨by simp [hgrest], ?_⟩
        intro hcontra
        exact hrnotin (hcontra ▸ List.mem_map_of_mem Prod.fst hgrest)
    · rw [show insertG ((r, fs) :: rest) p = (r, fs) :: insertG rest p from
        by simp [insertG, hr]] at hg
      rcases List.mem_cons.mp hg with hgeq | hgrest
      · subst hgeq
        exact Or.inl ⟨by simp, hr⟩
      · rcases ih hnd' g hgrest with ⟨hmem, hne⟩ | ⟨fs', hmem, heq⟩ | ⟨hnot, heq⟩
        · exact Or.inl ⟨by simp [hmem], hne⟩
        · exact Or.inr (Or.inl ⟨fs', by simp [hmem], heq⟩)
        · refine Or.inr (Or.inr ⟨?_, heq⟩)
          simp only [List.map_cons, List.mem_cons, not_or]
          exact ⟨Ne.symm hr, hnot⟩

/-- Invariant of the grouping fold of `identify_medical_deserts`: distinct
region keys, each group exactly the (nonempty) filter of the profiles seen so
far by its region, and every seen region represented. -/
lemma regionGroups_aux (ps : List FacilityProfile) :
    ∀ (acc : List (String × List FacilityProfile)) (seen : List FacilityProfile),
    (acc.map Prod.fst).Nodup →
    (∀ g ∈ acc, g.2 = seen.filter (fun q => q.region == g.1) ∧ g.2 ≠ []) →
    (∀ q ∈ seen, q.region ∈ acc.map Prod.fst) →
    (((ps.foldl insertG acc).map Prod.fst).Nodup ∧
     (∀ g ∈ ps.foldl insertG acc,
        g.2 = (seen ++ ps).filter (fun q => q.region == g.1) ∧ g.2 ≠ []) ∧
     (∀ q ∈ seen ++ ps, q.region ∈ (ps.foldl insertG acc).map Prod.fst)) := by
  induction ps with
  | nil =>
    intro acc seen h1 h2 h3
    simp only [List.foldl_nil, List.append_nil]
    exact ⟨h1, h2, h3⟩
  | cons p ps ih =>
    intro acc seen h1 h2 h3
    have hnd1 : ((insertG acc p).map Prod.fst).Nodup := by
      rw [insertG_keys]
      split
      · exact h1
      · next hmem => simp [List.nodup_append, h1, hmem]
    have hval1 : ∀ g ∈ insertG acc p,
        g.2 = (seen ++ [p]).filter (fun q => q.region == g.1) ∧ g.2 ≠ [] := by
      intro g hg
      rcases insertG_mem acc p h1 g hg with ⟨hmem, hne⟩ | ⟨fs, hmem, heq⟩ | ⟨hnot, heq⟩
      · obtain ⟨hv, hne'⟩ := h2 g hmem
        have hb : (p.region == g.1) = false :=
          beq_eq_false_iff_ne.mpr (fun h => hne h.symm)
        refine ⟨?_, hne'⟩
        rw [List.filter_append, ← hv]
        simp [List.filter_cons, hb]
      · obtain ⟨hv, -⟩ := h2 (p.region, fs) hmem
        subst heq
        refine ⟨?_, by simp⟩
        show fs ++ [p] = (seen ++ [p]).filter (fun q => q.region == p.region)
        rw [List.filter_append, ← hv]
        simp [List.filter_cons]
      · subst heq
        refine ⟨?_, by simp⟩
        show [p] = (seen ++ [p]).filter (fun q => q.region == p.region)
        have hseen : seen.filter (fun q => q.region == p.region) = [] := by
          rw [List.filter_eq_nil_iff]
          intro q hq hbeq
          have hmem := h3 q hq
          rw [eq_of_beq hbeq] at hmem
          exact hnot hmem
        rw [List.filter_append, hseen]
        simp [List.filter_cons]
    have hcov1 : ∀ q ∈ seen ++ [p], q.region ∈ (insertG acc p).map Prod.fst := by
      intro q hq
      rw [insertG_keys]
      rcases List.mem_append.mp hq with hq1 | hq2
      · split
        · exact h3 q hq1
        · exact List.mem_append_left _ (h3 q hq1)
      · simp only [List.mem_singleton] at hq2
        subst hq2
        split
        · next hmem => exact hmem
        · exact List.mem_append_right _ (by simp)
    have hres := ih (insertG acc p) (seen ++ [p]) hnd1 hval1 hcov1
    simpa [List.append_assoc] using hres

/-- The `region_data` dict of `identify_medical_deserts` groups exactly by
region: its keys are distinct, and the group of key `r` is precisely the
(nonempty) sublist of profiles with region `r`. -/
lemma regionGroups_spec (ps : List FacilityProfile) :
    ((regionGroups ps).map Prod.fst).Nodup ∧
    (∀ g ∈ regionGroups ps,
      g.2 = ps.filter (fun q => q.region == g.1) ∧ g.2 ≠ []) ∧
    (∀ q ∈ ps, q.region ∈ (regionGroups ps).map Prod.fst) := by
  have h := regionGroups_aux ps [] [] (by simp) (by simp) (by simp)
  simpa [regionGroups] using h

lemma mem_identifyMedicalDeserts {profiles : List FacilityProfile}
    {threshold : ℚ} {d : DesertEntry} :
    d ∈ identifyMedicalDeserts profiles threshold ↔
      ∃ g ∈ regionGroups profiles, mkDesertEntry threshold g = some d := by
  unfold identifyMedicalDeserts
  rw [mem_sortByRiskDesc, List.mem_filterMap]

lemma mkDesertEntry_some {threshold : ℚ} {g : String × List FacilityProfile}
    {d : DesertEntry} (h : mkDesertEntry threshold g = some d) :
    threshold ≤ avgDesertRisk g.2 ∧ d.region = g.1 ∧ d.facility_count = g.2.length := by
  unfold mkDesertEntry at h
  split at h
  · next hc =>
    injection h with h
    subst h
    exact ⟨hc, rfl, rfl⟩
  · exact absurd h (by simp)

/-- A minimal profile for the regional-aggregation scenario: only region,
names and the desert-risk score matter. -/
def mkDemoProfile (id nm : String) (score : ℚ) : FacilityProfile :=
  { facility_id := id
    facility_name := nm
    region := "Northern"
    district := "d"
    coordinates := (0, 0)
    facility_type := "District Hospital"
    specialties := []
    equipment := []
    procedures := []
    gaps := []
    urgent_needs := []
    suspicious_claims := []
    capabilities := []
    capability_score := 0
    desert_risk_score := score }

/-- Three facilities with desert-risk scores 80, 55 and 40
(average 175/3 ≈ 58.3). -/
def demoProfilesA : List FacilityProfile :=
  [mkDemoProfile "F1" "A" 80, mkDemoProfile "F2" "B" 55, mkDemoProfile "F3" "C" 40]

/-- The same region with the middle score raised to 65 (average 185/3 ≥ 60). -/
def demoProfilesB : List FacilityProfile :=
  [mkDemoProfile "F1" "A" 80, mkDemoProfile "F2" "B" 65, mkDemoProfile "F3" "C" 40]

/-- The desert entry produced for `demoProfilesB`. -/
def demoEntryB : DesertEntry :=
  { region := "Northern"
    desert_risk_score := 185/3
    avg_capability_score := 0
    facility_count := 3
    total_gaps := 0
    facilities := ["A", "B", "C"]
    critical_gaps := [] }

lemma demoA_eval : identifyMedicalDeserts demoProfilesA 60 = [] := by
  unfold identifyMedicalDeserts regionGroups
  norm_num [demoProfilesA, mkDemoProfile, insertG, mkDesertEntry, avgDesertRisk,
    avgCapability, sortByRiskDesc]

lemma demoB_eval : identifyMedicalDeserts demoProfilesB 60 = [demoEntryB] := by
  have hg : regionGroups demoProfilesB = [("Northern", demoProfilesB)] := by
    norm_num [regionGroups, demoProfilesB, mkDemoProfile, insertG]
  have havg : avgDesertRisk demoProfilesB = 185/3 := by
    norm_num [avgDesertRisk, demoProfilesB, mkDemoProfile]
  have hcap : avgCapability demoProfilesB = 0 := by
    norm_num [avgCapability, demoProfilesB, mkDemoProfile]
  have hnames : demoProfilesB.map (fun f => f.facility_name) = ["A", "B", "C"] := by
    norm_num [demoProfilesB, mkDemoProfile]
  have hgapslen : (demoProfilesB.map (fun f => f.gaps.length)).sum = 0 := by
    norm_num [demoProfilesB, mkDemoProfile]
  have hgaps : ((demoProfilesB.map (fun f => f.gaps)).flatten).eraseDups = [] := by
    decide
  have hlen : demoProfilesB.length = 3 := rfl
  have hmk : mkDesertEntry 60 ("Northern", demoProfilesB) = some demoEntryB := by
    unfold mkDesertEntry
    rw [if_pos (by norm_num [havg] : (60 : ℚ) ≤ avgDesertRisk ("Northern", demoProfilesB).2)]
    simp [demoEntryB, havg, hcap, hnames, hgapslen, hgaps, hlen]
  unfold identifyMedicalDeserts
  rw [hg]
  simp [hmk, sortByRiskDesc, insertDesc]

/-- Claim C4: a region appears in the output of `identify_medical_deserts`
exactly when it has at least one facility and the average desert-risk score
of its facilities meets or exceeds the threshold; every emitted entry counts
at least one facility.  In particular the region with scores 80, 55, 40
(average 58.3) is not emitted at the default threshold 60, while raising the
average to 185/3 ≥ 60 flips the classification. -/
theorem identify_medical_deserts_spec (profiles : List FacilityProfile)
    (threshold : ℚ) :
    (∀ r : String,
      (∃ d ∈ identifyMedicalDeserts profiles threshold, d.region = r) ↔
        (regionFacilities profiles r ≠ [] ∧
         threshold ≤ avgDesertRisk (regionFacilities profiles r))) ∧
    (∀ d ∈ identifyMedicalDeserts profiles threshold, 1 ≤ d.facility_count) ∧
    identifyMedicalDeserts demoProfilesA 60 = [] ∧
    (identifyMedicalDeserts demoProfilesB 60).map (fun d => d.region) =
      ["Northern"] := by
  obtain ⟨hnd, hval, hcov⟩ := regionGroups_spec profiles
  refine ⟨?_, ?_, demoA_eval, by rw [demoB_eval]; rfl⟩
  · intro r
    constructor
    · rintro ⟨d, hd, rfl⟩
      obtain ⟨g, hg, hmk⟩ := mem_identifyMedicalDeserts.mp hd
      obtain ⟨hc, hreg, -⟩ := mkDesertEntry_some hmk
      obtain ⟨hv, hne⟩ := hval g hg
      rw [hreg]
      unfold regionFacilities
      rw [← hv]
      exact ⟨hne, hc⟩
    · rintro ⟨hne, havg⟩
      obtain ⟨q, hq⟩ := List.exists_mem_of_ne_nil _ hne
      unfold regionFacilities at hq
      have hmf := List.mem_filter.mp hq
      have hqp : q ∈ profiles := hmf.1
      have hqr : q.region = r := by simpa using hmf.2
      have hrmem : r ∈ (regionGroups profiles).map Prod.fst := hqr ▸ hcov q hqp
      obtain ⟨g, hg, hgr⟩ := List.mem_map.mp hrmem
      obtain ⟨hv, -⟩ := hval g hg
      have hfilter : g.2 = regionFacilities profiles r := by
        unfold regionFacilities
        rw [hv, hgr]
      have hc : threshold ≤ avgDesertRisk g.2 := by
        rw [hfilter]
        exact havg
      refine ⟨{ region := g.1
                desert_risk_score := avgDesertRisk g.2
                avg_capability_score := avgCapability g.2
                facility_count := g.2.length
                total_gaps := (g.2.map (fun f => f.gaps.length)).sum
                facilities := g.2.map (fun f => f.facility_name)
                critical_gaps := ((g.2.map (fun f => f.gaps)).flatten).eraseDups },
              ?_, hgr⟩
      refine mem_identifyMedicalDeserts.mpr ⟨g, hg, ?_⟩
      unfold mkDesertEntry
      rw [if_pos hc]
  · intro d hd
    obtain ⟨g, hg, hmk⟩ := mem_identifyMedicalDeserts.mp hd
    obtain ⟨-, -, hcount⟩ := mkDesertEntry_some hmk
    obtain ⟨-, hne⟩ := hval g hg
    rw [hcount]
    exact List.length_pos.mpr hne

/-- A closed instance of `identify_medical_deserts_spec`: the entry emitted
for the flipped scenario counts its three facilities, so at least one. -/
theorem identify_medical_deserts_spec_witness : 1 ≤ demoEntryB.facility_count := by
  have h := (identify_medical_deserts_spec demoProfilesB 60).2.1 demoEntryB
    (by rw [demoB_eval]; exact List.mem_singleton_self _)
  exact h

/-! ## Claims C6, C7, C10: the citation ledger -/

lemma endStep_current (t : CitationTracker) (n : Nat) (out : Data)
    (dur : Option ℚ) :
    (endStep t n out dur).current_step_number = t.current_step_number := rfl

lemma addCitation_current (t : CitationTracker) (n : Nat) (c : Citation) :
    (addCitationToStep t n c).current_step_number = t.current_step_number := rfl

lemma runOps_spec (ops : List Op) :
    ∀ t : CitationTracker,
      (runOps t ops).2 = List.range' (t.current_step_number + 1) (countStart ops) ∧
      (runOps t ops).1.current_step_number =
        t.current_step_number + countStart ops := by
  induction ops with
  | nil => intro t; simp [runOps, countStart]
  | cons op ops ih =>
    intro t
    cases op with
    | start nm ds inp =>
      have hstart : (startStep t nm ds inp).1.current_step_number =
          t.current_step_number + 1 := rfl
      obtain ⟨h1, h2⟩ := ih (startStep t nm ds inp).1
      refine ⟨?_, ?_⟩
      · show (startStep t nm ds inp).2 :: (runOps (startStep t nm ds inp).1 ops).2 =
          List.range' (t.current_step_number + 1) (countStart ops + 1)
        rw [List.range'_succ, h1, hstart]
        rfl
      · show (runOps (startStep t nm ds inp).1 ops).1.current_step_number =
          t.current_step_number + (countStart ops + 1)
        rw [h2, hstart]
        omega
    | finish n out dur =>
      obtain ⟨h1, h2⟩ := ih (endStep t n out dur)
      constructor
      · show (runOps (endStep t n out dur) ops).2 = _
        rw [h1, endStep_current]
        rfl
      · show (runOps (endStep t n out dur) ops).1.current_step_number = _
        rw [h2, endStep_current]
        rfl
    | cite n c =>
      obtain ⟨h1, h2⟩ := ih (addCitationToStep t n c)
      constructor
      · show (runOps (addCitationToStep t n c) ops).2 = _
        rw [h1, addCitation_current]
        rfl
      · show (runOps (addCitationToStep t n c) ops).1.current_step_number = _
        rw [h2, addCitation_current]
        rfl

lemma pairwise_lt_range' : ∀ (n s : Nat), List.Pairwise (· < ·) (List.range' s n)
  | 0, _ => List.Pairwise.nil
  | n + 1, s => by
    rw [List.range'_succ]
    refine List.Pairwise.cons ?_ (pairwise_lt_range' n (s + 1))
    intro x hx
    have hx1 := (List.mem_range'_1.mp hx).1
    omega

/-- Claim C6: over any sequence of ledger operations on a fresh tracker, the
step numbers returned by the `start_step` calls are exactly 1, 2, 3, ... (one
per call, no gaps, no repeats), and in particular each is strictly greater
than all previously returned ones. -/
theorem start_step_numbers_sequential (ops : List Op) :
    (runOps CitationTracker.init ops).2 = List.range' 1 (countStart ops) ∧
    List.Pairwise (· < ·) (runOps CitationTracker.init ops).2 := by
  obtain ⟨h1, -⟩ := runOps_spec ops CitationTracker.init
  exact ⟨h1, h1 ▸ pairwise_lt_range' (countStart ops) 1⟩

lemma setStepOutput_twice (steps : List AgentStep) (n : Nat) (o1 o2 : Data)
    (d1 d2 : Option ℚ) :
    setStepOutput (setStepOutput steps n o1 d1) n o2 d2 =
      setStepOutput steps n o2 d2 := by
  induction steps with
  | nil => rfl
  | cons s rest ih =>
    by_cases h : s.step_number = n
    · simp [setStepOutput, h]
    · simp [setStepOutput, h, ih]

lemma setStepOutput_numbers (steps : List AgentStep) (n : Nat) (o : Data)
    (d : Option ℚ) :
    (setStepOutput steps n o d).map (fun s => s.step_number) =
      steps.map (fun s => s.step_number) := by
  induction steps with
  | nil => rfl
  | cons s rest ih =>
    by_cases h : s.step_number = n
    · simp [setStepOutput, h]
    · simp [setStepOutput, h, ih]

/-- Claim C7 counterexample: `end_step` silently overwrites.  After a step is
completed with output A, a second `end_step` call replaces its output with B,
so the already-written output does not survive. -/
def cexTracker : CitationTracker :=
  (startStep CitationTracker.init "demo" "demo step" []).1

theorem end_step_overwrites_cex :
    ((endStep (endStep cexTracker 1 [("result", "A")] (some 5)) 1
        [("result", "B")] (some 7)).steps.map (fun s => s.output_data)) =
      [[("result", "B")]] ∧
    ((endStep cexTracker 1 [("result", "A")] (some 5)).steps.map
        (fun s => s.output_data)) = [[("result", "A")]] ∧
    ([("result", "B")] : Data) ≠ [("result", "A")] := by
  refine ⟨rfl, rfl, by decide⟩

/-- Claim C7, amended: a second `end_step` call on the same step number
silently overwrites the step's output and duration — `end_step` has
last-write-wins semantics (ending a step twice equals ending it once with the
later values).  No step is added, removed or renumbered, and the step counter
is untouched. -/
theorem end_step_last_write_wins (t : CitationTracker) (n : Nat)
    (o1 o2 : Data) (d1 d2 : Option ℚ) :
    endStep (endStep t n o1 d1) n o2 d2 = endStep t n o2 d2 ∧
    (endStep t n o1 d1).steps.map (fun s => s.step_number) =
      t.steps.map (fun s => s.step_number) ∧
    (endStep t n o1 d1).current_step_number = t.current_step_number := by
  refine ⟨?_, setStepOutput_numbers t.steps n o1 d1, rfl⟩
  unfold endStep
  rw [setStepOutput_twice]

lemma setStepOutput_id (steps : List AgentStep) (n : Nat) (o : Data)
    (d : Option ℚ) (h : ∀ s ∈ steps, s.step_number ≠ n) :
    setStepOutput steps n o d = steps := by
  induction steps with
  | nil => rfl
  | cons s rest ih =>
    have hs : s.step_number ≠ n := h s (by simp)
    simp [setStepOutput, hs, ih (fun s hs' => h s (by simp [hs']))]

lemma addCitationAux_id (steps : List AgentStep) (n : Nat) (c : Citation)
    (h : ∀ s ∈ steps, s.step_number ≠ n) :
    addCitationAux steps n c = steps := by
  induction steps with
  | nil => rfl
  | cons s rest ih =>
    have hs : s.step_number ≠ n := h s (by simp)
    simp [addCitationAux, hs, ih (fun s hs' => h s (by simp [hs']))]

/-- Claim C10: calling `end_step` or `add_citation_to_step` with a step
number that was never issued is a silent no-op — the tracker is left
completely unchanged (no exception is possible: the functions are total). -/
theorem unknown_step_noop (t : CitationTracker) (n : Nat) (out : Data)
    (dur : Option ℚ) (c : Citation)
    (h : ∀ s ∈ t.steps, s.step_number ≠ n) :
    endStep t n out dur = t ∧ addCitationToStep t n c = t := by
  constructor
  · unfold endStep
    rw [setStepOutput_id t.steps n out dur h]
  · unfold addCitationToStep
    rw [addCitationAux_id t.steps n c h]

/-- A closed instance of `unknown_step_noop`: a tracker holding only step 1
is unchanged by `end_step`/`add_citation_to_step` on step number 5. -/
def noopCitation : Citation :=
  { source_type := "facility_row", facility_id := some "F1"
    facility_name := some "Clinic A", field_name := none, field_value := none
    row_number := some 1, confidence := 1 }

theorem unknown_step_noop_witness :
    endStep cexTracker 5 [("x", "1")] none = cexTracker ∧
    addCitationToStep cexTracker 5 noopCitation = cexTracker :=
  unknown_step_noop cexTracker 5 [("x", "1")] none noopCitation (by decide)

/-! ## Claim C8: degradation of LLM-based procedure extraction -/

/-- Claim C8: `_llm_extract_procedures` never raises (it is a total
function); it returns the empty list whenever the provider call fails with
any exception, or the provider's response does not parse; and for text
shorter than 20 characters the result is the empty list no matter what the
provider would do — i.e. the provider is never consulted. -/
theorem llm_extract_procedures_degrades
    (provider : String → Except String String)
    (parseJson : String → Option (List ProcItem)) (text : String) :
    (∀ e, provider text = .error e →
      llmExtractProcedures provider parseJson text = []) ∧
    (∀ resp, provider text = .ok resp → parseJson (trimStr resp) = none →
      llmExtractProcedures provider parseJson text = []) ∧
    (text.length < 20 →
      llmExtractProcedures provider parseJson text = [] ∧
      ∀ (provider2 : String → Except String String)
        (parse2 : String → Option (List ProcItem)),
        llmExtractProcedures provider2 parse2 text =
          llmExtractProcedures provider parseJson text) := by
  refine ⟨?_, ?_, ?_⟩
  · intro e he
    unfold llmExtractProcedures
    split
    · rfl
    · simp [he]
  · intro resp hresp hparse
    unfold llmExtractProcedures
    split
    · rfl
    · simp [hresp, hparse]
  · intro hshort
    have h : ∀ (pr : String → Except String String)
        (pj : String → Option (List ProcItem)),
        llmExtractProcedures pr pj text = [] := by
      intro pr pj
      unfold llmExtractProcedures
      rw [if_pos (Or.inr hshort)]
    exact ⟨h provider parseJson, fun pr2 pj2 => by rw [h pr2 pj2, h provider parseJson]⟩

/-- Closed instances of `llm_extract_procedures_degrades`: a raising
provider, a provider returning non-JSON text, and a short text each yield the
empty list. -/
def raisingProvider : String → Except String String :=
  fun _ => .error "connection refused"

def okProvider : String → Except String String :=
  fun _ => .ok "I could not find any procedures."

def failingParse : String → Option (List ProcItem) :=
  fun _ => none

theorem llm_extract_procedures_degrades_witness :
    llmExtractProcedures raisingProvider failingParse
      "performs about 200 cardiac surgeries annually" = [] ∧
    llmExtractProcedures okProvider failingParse
      "performs about 200 cardiac surgeries annually" = [] ∧
    llmExtractProcedures raisingProvider failingParse "short note" = [] := by
  refine ⟨?_, ?_, ?_⟩
  · exact (llm_extract_procedures_degrades raisingProvider failingParse
      "performs about 200 cardiac surgeries annually").1 "connection refused" rfl
  · exact (llm_extract_procedures_degrades okProvider failingParse
      "performs about 200 cardiac surgeries annually").2.1
      "I could not find any procedures." rfl rfl
  · exact ((llm_extract_procedures_degrades raisingProvider failingParse
      "short note").2.2 (by decide)).1

/-! ## Claim C9: orchestrator error handling -/

/-- Claim C9: if any of the four pipeline states raises (at whichever stage
the run has reached), `process_query` catches it at the top level and returns
exactly the error dict: the exception message, the query and the elapsed
time, with none of the normal output fields (no response, no intent, no
entities, no matching facilities, no analysis results, no citations). -/
theorem process_query_error_result
    (n1 n2 n3 n4 : AgentState → Except String AgentState)
    (q : String) (records : List Data) (elapsed : ℚ) (e : String)
    (h : n1 (initialState q records) = .error e ∨
      (∃ s1, n1 (initialState q records) = .ok s1 ∧ n2 s1 = .error e) ∨
      (∃ s1 s2, n1 (initialState q records) = .ok s1 ∧ n2 s1 = .ok s2 ∧
        n3 s2 = .error e) ∨
      (∃ s1 s2 s3, n1 (initialState q records) = .ok s1 ∧ n2 s1 = .ok s2 ∧
        n3 s2 = .ok s3 ∧ n4 s3 = .error e)) :
    processQuery (runGraph n1 n2 n3 n4) q records elapsed =
      { error := some e
        query := q
        response := none
        intent := none
        entities := none
        matching_facilities := none
        analysis_results := none
        citations := none
        processing_time_ms := elapsed
        errors := none } := by
  have hrun : runGraph n1 n2 n3 n4 (initialState q records) = .error e := by
    rcases h with h1 | ⟨s1, h1, h2⟩ | ⟨s1, s2, h1, h2, h3⟩ | ⟨s1, s2, s3, h1, h2, h3, h4⟩ <;>
      simp [runGraph, h1]
    · simp [h2]
    · simp [h2, h3]
    · simp [h2, h3, h4]
  unfold processQuery
  rw [hrun]

/-- A closed instance of `process_query_error_result`: a first-stage failure
produces the error dict. -/
def failingNode : AgentState → Except String AgentState :=
  fun _ => .error "KeyError: facility_id"

def passNode : AgentState → Except String AgentState :=
  fun s => .ok s

theorem process_query_error_result_witness :
    processQuery (runGraph failingNode passNode passNode passNode)
      "Which hospitals can perform cardiac surgery?" [] 12 =
      { error := some "KeyError: facility_id"
        query := "Which hospitals can perform cardiac surgery?"
        response := none
        intent := none
        entities := none
        matching_facilities := none
        analysis_results := none
        citations := none
        processing_time_ms := 12
        errors := none } :=
  process_query_error_result failingNode passNode passNode passNode
    "Which hospitals can perform cardiac surgery?" [] 12 "KeyError: facility_id"
    (Or.inl rfl)

end MedicalIDP
